import Mathlib

/-!
# go-git-em-tiger: the interactive session core of `cmd/tiger/main.go`

A shallow embedding of the read-eval loop of `main.go`: the tokenizer, the
command switch, the helper functions that query the external tool, the three
ways of running an external program, and the prompt.

External programs, the terminal and the operating system are the environment:
their answers are given by an oracle `Env`, which may depend on everything that
happened before, and every interaction is written to a trace together with the
answer that was received.  Go strings are Lean strings, Go errors are the text
of their message, `nil` is `none`.
-/

set_option autoImplicit false

namespace Tiger

/-! ## Library functions of package `strings` and `path` used by the program -/

/-- Cut a character sequence at every occurrence of `sep`; there is always
one more piece than there are separators. -/
def splitChars (sep : Char) : List Char → List (List Char)
  | [] => [[]]
  | c :: cs =>
    if c = sep then [] :: splitChars sep cs
    else
      match splitChars sep cs with
      | [] => [[c]]
      | t :: ts => (c :: t) :: ts

/-- The call `strings.Split(s, sep)` for a separator of one character; both
call sites of the program pass such a separator (a space, a line feed). -/
def stringsSplit (s : String) (sep : Char) : List String :=
  (splitChars sep s.data).map String.mk

/-- The call `strings.Join(elems, sep)`. -/
def stringsJoin : List String → String → String
  | [], _ => ""
  | [a], _ => a
  | a :: b :: rest, sep => a ++ sep ++ stringsJoin (b :: rest) sep

/-- White space as `unicode.IsSpace` defines it. -/
def isSpace (c : Char) : Bool :=
  let n := c.toNat
  n = 0x20 || (0x09 ≤ n && n ≤ 0x0d) || n = 0x85 || n = 0xa0 || n = 0x1680 ||
  (0x2000 ≤ n && n ≤ 0x200a) || n = 0x2028 || n = 0x2029 || n = 0x202f ||
  n = 0x205f || n = 0x3000

/-- The call `strings.TrimSpace(s)`: white space removed at both ends. -/
def stringsTrimSpace (s : String) : String :=
  String.mk ((s.data.dropWhile isSpace).reverse.dropWhile isSpace).reverse

/-- The call `strings.HasPrefix(s, p)`. -/
def stringsHasPrefix (s p : String) : Bool :=
  p.data.isPrefixOf s.data

/-- The call `strings.TrimPrefix(s, p)`: `s` without the leading `p`, or `s`
itself when it does not start with `p`. -/
def stringsTrimPrefix (s p : String) : String :=
  if stringsHasPrefix s p then String.mk (s.data.drop p.data.length) else s

/-- The function `normalizePathSeparators`: every backslash becomes a slash. -/
def normalizePathSeparators (path : String) : String :=
  String.mk (path.data.map (fun c => if c = '\\' then '/' else c))

/-- The call `path.Base(p)`: the last element of a slash-separated path. -/
def pathBase (p : String) : String :=
  if p = "" then "."
  else
    let stripped := (p.data.reverse.dropWhile (fun c => c = '/')).reverse
    let last := ((splitChars '/' stripped).getLast?).getD []
    if last = [] then "/" else String.mk last

/-! ## Slices

`args` is resliced and appended to, so it is modelled as Go does it: a window
(pointer, offset, length, capacity) into a backing array held in a store.
The other slices of the program are built once from fresh storage and never
shared, so they are plain lists. -/

/-- The backing arrays allocated so far. -/
abbrev Store := List (List String)

/-- A slice header. -/
structure Slice where
  ptr : Nat
  off : Nat
  len : Nat
  cap : Nat
  deriving DecidableEq, Repr

/-- The elements a slice shows of its backing array. -/
def Slice.elems (st : Store) (s : Slice) : List String :=
  ((st.getD s.ptr []).drop s.off).take s.len

/-- The expression `s[i]`; the program indexes `args` only where it has an
element at `i`. -/
def Slice.index (st : Store) (s : Slice) (i : Nat) : String :=
  (s.elems st).getD i ""

/-- The expression `s[i:]`. -/
def Slice.sliceFrom (s : Slice) (i : Nat) : Slice :=
  { ptr := s.ptr, off := s.off + i, len := s.len - i, cap := s.cap - i }

/-- The expression `s[:j]`: the capacity of `s` is kept. -/
def Slice.sliceTo (s : Slice) (j : Nat) : Slice :=
  { ptr := s.ptr, off := s.off, len := j, cap := s.cap }

/-- The built-in `append(s, xs...)`: when the capacity suffices the new
elements are written into the backing array of `s`, right behind its last
element, and every slice sharing that array sees them; otherwise the elements
move to a new array. -/
def goAppend (st : Store) (s : Slice) (xs : List String) : Store × Slice :=
  if s.len + xs.length ≤ s.cap then
    let a := st.getD s.ptr []
    let a' := a.take (s.off + s.len) ++ xs ++ a.drop (s.off + s.len + xs.length)
    (st.set s.ptr a', { s with len := s.len + xs.length })
  else
    let a' := s.elems st ++ xs
    (st ++ [a'], { ptr := st.length, off := 0, len := a'.length, cap := a'.length })

/-- The slice `strings.Split` returns: it fills an array made for exactly the
number of pieces, so length and capacity agree. -/
def splitSlice (s : String) (sep : Char) : Store × Slice :=
  let toks := stringsSplit s sep
  ([toks], { ptr := 0, off := 0, len := toks.length, cap := toks.length })

/-! ## The environment and the session state -/

/-- What `(c *cmd).Output()` returns: the captured streams and the error. -/
structure Result where
  stdout : String
  stderr : String
  err : Option String
  deriving DecidableEq, Repr

/-- One interaction of the session with the outside, with the answer received.
Programs are named by their argument vector, the program name first. -/
inductive Event where
  /-- A program run to completion with captured streams (`Output`). -/
  | output (argv : List String) (err : Option String)
  /-- A program run to completion on the streams of the session (`Attach`). -/
  | attach (argv : List String) (err : Option String)
  /-- The call `Start()` on a program. -/
  | start (argv : List String) (err : Option String)
  /-- The call `Wait()` on a program. -/
  | wait (argv : List String) (err : Option String)
  /-- The call `w.Close()` on the write side of the pipe. -/
  | closeWrite
  /-- Text written to standard output. -/
  | print (text : String)
  /-- The call `os.Chdir(dir)`. -/
  | chdir (dir : String) (err : Option String)
  /-- The call `os.Remove(path)`. -/
  | remove (path : String) (err : Option String)
  deriving DecidableEq, Repr

/-- The answers of the outside world; each may depend on the trace so far. -/
structure Env where
  /-- Outcome of running a program with captured streams. -/
  run : List Event → List String → Result
  /-- Outcome of running a program on the streams of the session. -/
  attached : List Event → List String → Option String
  /-- Outcome of starting a program. -/
  start : List Event → List String → Option String
  /-- Outcome of waiting for a started program. -/
  wait : List Event → List String → Option String
  /-- Outcome of `os.Chdir`. -/
  chdir : List Event → String → Option String
  /-- Outcome of `os.Getwd`. -/
  getwd : List Event → Except String String
  /-- Outcome of `os.Remove`. -/
  remove : List Event → String → Option String
  /-- The constant `PATH_SEPARATOR`, the path separator of the platform. -/
  pathSeparator : String

/-- What `os.Open` and reading make of a path that has an entry. -/
inductive File where
  /-- The file opens and reads to its end with this content. -/
  | readable (content : String)
  /-- The file opens, but reading it fails (a directory, an input error). -/
  | unreadable (err : String)
  /-- The call `os.Open` fails with an error other than "does not exist". -/
  | denied (err : String)
  deriving DecidableEq, Repr

/-- The session: what happened so far, the lines of standard input not yet
read, and the paths that have an entry in the file system, each with what
opening and reading it gives.  A path without an entry does not exist.  Only
a successful `os.Remove` of the program itself changes the entries here. -/
structure State where
  trace : List Event
  input : List String
  files : List (String × File)
  deriving DecidableEq, Repr

/-- Append an event to the trace. -/
def State.log (st : State) (e : Event) : State :=
  { st with trace := st.trace ++ [e] }

/-- Where control is after a piece of the loop body. -/
inductive Outcome where
  /-- The switch is left; control is at label `there`. -/
  | next (st : State)
  /-- The statement `break everywhere`. -/
  | quit (st : State)
  /-- An unrecovered `panic`: the process is terminated. -/
  | panic (msg : String) (st : State)
  deriving DecidableEq, Repr

/-- The state an outcome carries. -/
def Outcome.state : Outcome → State
  | .next st => st
  | .quit st => st
  | .panic _ st => st

/-! ## Colours -/

def Red : String := "\x1b[31m"
def Yellow : String := "\x1b[33m"
def Blue : String := "\x1b[34m"
def Cyan : String := "\x1b[36m"
def Grey : String := "\x1b[37m"
def Reset : String := "\x1b[0m"

/-! ## Running programs -/

/-- The function `git`: the argument vector of the external tool. -/
def git (args : List String) : List String := "git" :: args

/-- The method `Output`. -/
def Output (env : Env) (st : State) (argv : List String) : Result × State :=
  let r := env.run st.trace argv
  (r, st.log (.output argv r.err))

/-- The method `Attach`. -/
def Attach (env : Env) (st : State) (argv : List String) : Option String × State :=
  let e := env.attached st.trace argv
  (e, st.log (.attach argv e))

/-- The method `AttachWithPipe`: `c` is the first program, `pipe` the second.
Creating the pipe and wiring the streams leaves no trace. -/
def AttachWithPipe (env : Env) (st : State) (c pipe : List String) :
    Option String × State :=
  let e1 := env.start st.trace c
  let st1 := st.log (.start c e1)
  match e1 with
  | some e => (some e, st1)
  | none =>
    let e2 := env.start st1.trace pipe
    let st2 := st1.log (.start pipe e2)
    match e2 with
    | some e => (some e, st2)
    | none =>
      let e3 := env.wait st2.trace c
      let st3 := st2.log (.wait c e3)
      match e3 with
      | some e => (some e, st3)
      | none =>
        let st4 := st3.log .closeWrite
        let e4 := env.wait st4.trace pipe
        (e4, st4.log (.wait pipe e4))

/-- The function `println`: report the error, then the trimmed streams when
they are not empty; the error is handed back. -/
def println (st : State) (r : Result) : Option String × State :=
  let st1 :=
    match r.err with
    | some e => st.log (.print (Red ++ "ERROR:" ++ Reset ++ " " ++ e ++ "\n"))
    | none => st
  let out := stringsTrimSpace r.stdout
  let st2 := if out ≠ "" then st1.log (.print (out ++ "\n")) else st1
  let errText := stringsTrimSpace r.stderr
  let st3 := if errText ≠ "" then st2.log (.print (errText ++ "\n")) else st2
  (r.err, st3)

/-- The call `println(git(...).Output())`. -/
def printlnOutput (env : Env) (st : State) (argv : List String) : Option String × State :=
  let (r, st1) := Output env st argv
  println st1 r

/-! ## Queries -/

/-- The function `gitDir`. -/
def gitDir (env : Env) (st : State) : Except String String × State :=
  let (r, st1) := Output env st (git ["worktree", "list", "--porcelain"])
  match r.err with
  | some e => (.error e, st1)
  | none =>
    let first := (stringsSplit r.stdout '\n').headD ""
    (.ok (stringsTrimPrefix (stringsTrimSpace first) "worktree "), st1)

/-- The function `config`. -/
def config (env : Env) (st : State) (param : String) : Except String String × State :=
  let (r, st1) := Output env st (git ["config", param])
  match r.err with
  | some e => (.error e, st1)
  | none => (.ok (stringsTrimSpace r.stdout), st1)

/-- The function `draftFile`. -/
def draftFile (env : Env) (st : State) : Except String String × State :=
  match gitDir env st with
  | (.error e, st1) => (.error e, st1)
  | (.ok dir, st1) =>
    (.ok (dir ++ env.pathSeparator ++ ".git" ++ env.pathSeparator ++ "COMMIT_DRAFTMSG"), st1)

/-- The function `fileExists`: `false` when `os.Open` reports that the file
does not exist, a panic (the error value) on any other error of `os.Open`,
`true` otherwise. -/
def fileExists (st : State) (filename : String) : Except String Bool :=
  match st.files.lookup filename with
  | none => .ok false
  | some (.denied e) => .error e
  | some _ => .ok true

/-- The function `fileGetContents`: the whole content, or a panic (the error
value) when the file cannot be opened or cannot be read to its end. -/
def fileGetContents (st : State) (filename : String) : Except String String :=
  match st.files.lookup filename with
  | none => .error ("open " ++ filename ++ ": no such file or directory")
  | some (.denied e) => .error e
  | some (.unreadable e) => .error e
  | some (.readable c) => .ok c

/-- The call `os.Remove(path)`.  The removal can fail; the program drops the
error, and the file is gone only when the removal succeeded. -/
def osRemove (env : Env) (st : State) (path : String) : State :=
  let e := env.remove st.trace path
  { st with
    trace := st.trace ++ [.remove path e]
    files := if e.isNone then st.files.filter (fun f => f.1 ≠ path) else st.files }

/-- The function `pager`: the second program of the pipe chain, or a panic
when `core.pager` cannot be read. -/
def pager (env : Env) (st : State) : Except String (List String) × State :=
  match config env st "core.pager" with
  | (.error e, st1) => (.error e, st1)
  | (.ok p, st1) => (.ok ["sh", "-c", "cat - | " ++ p], st1)

/-- The loop of `branch` over the lines of the listing: the first line that
starts with the marker, without the marker; the empty text when there is none. -/
def firstMarked : List String → String
  | [] => ""
  | ln :: rest =>
    if stringsHasPrefix ln "* " then stringsTrimPrefix ln "* " else firstMarked rest

/-- The function `branch`. -/
def branch (env : Env) (st : State) : String × State :=
  let (r, st1) := Output env st (git ["branch"])
  match r.err with
  | some _ => ("", st1)
  | none => (firstMarked (stringsSplit r.stdout '\n'), st1)

/-- The function `prompt`. -/
def prompt (env : Env) (st : State) : Outcome :=
  match env.getwd st.trace with
  | .error e => .panic ("unexpected error: " ++ e) st
  | .ok cwd0 =>
    let cwd := normalizePathSeparators cwd0
    match gitDir env st with
    | (.error _, st1) =>
      let st2 := st1.log (.print ("\nType \"" ++ Blue ++ "init" ++ Reset ++
        "\" to get started with git!" ++ "\n"))
      .next (st2.log (.print (Red ++ "(not a git repository)" ++ Reset ++ " " ++
        pathBase cwd ++ " % ")))
    | (.ok gwd0, st1) =>
      let gwd := normalizePathSeparators gwd0
      let st2 := (Attach env st1 (git ["status", "-s", "-uall"])).2
      let repo := pathBase gwd
      let rel := stringsTrimPrefix cwd gwd
      let (b, st3) := branch env st2
      .next (st3.log (.print (Grey ++ "git@" ++ Reset ++ Yellow ++ b ++ Reset ++ " " ++
        Cyan ++ repo ++ rel ++ Reset ++ " % ")))

/-- The calls `scanner.Scan(); scanner.Text()`: the next line of input, the
empty text when there is none. -/
def scanText (st : State) : String × State :=
  match st.input with
  | [] => ("", st)
  | l :: rest => (l, { st with input := rest })

/-! ## The command switch -/

/-- The statement of line 447,
`args = append(append(args[:1], "--color"), args[1:]...)`.
The inner call appends to `args[:1]`, which keeps the capacity of `args`; the
elements of `args[1:]` are read from the backing array when the outer call
copies them, after the inner call has returned. -/
def injectColor (store : Store) (args : Slice) : Store × Slice :=
  let (store1, inner) := goAppend store (args.sliceTo 1) ["--color"]
  goAppend store1 inner ((args.sliceFrom 1).elems store1)

/-- The loop at label `here`: the flags of the plain `commit`.  `rest` holds
`args[n:]`; at `-m` the loop is left. -/
def commitFlags (st : State) : List String → List String → List String × State
  | flags, [] => (flags, st)
  | flags, arg :: rest =>
    if arg = "-m" then
      if rest ≠ [] then (flags ++ ["-m", stringsJoin rest " "], st)
      else
        let st1 := st.log (.print ("enter commit message (optional):" ++ "\n"))
        let (msg, st2) := scanText st1
        (flags ++ ["-m", msg], st2)
    else commitFlags st (flags ++ [arg]) rest

/-- The case `"cd"`. -/
def caseCd (env : Env) (st : State) (args : List String) : Outcome :=
  if args.length > 1 then
    let dir := stringsJoin (args.drop 1) " "
    let e := env.chdir st.trace dir
    let st1 := st.log (.chdir dir e)
    match e with
    | some msg => .next (st1.log (.print (Red ++ " " ++ msg ++ " " ++ Reset ++ "\n")))
    | none => .next st1
  else .next st

/-- The case `"draft"`. -/
def caseDraft (env : Env) (st : State) : Outcome :=
  match draftFile env st with
  | (.error e, st1) => .next (println st1 ⟨"", "", some e⟩).2
  | (.ok draft, st1) =>
    match config env st1 "core.editor" with
    | (.error e, st2) => .next (println st2 ⟨"", "", some e⟩).2
    | (.ok ed, st2) => .next (Attach env st2 [ed, draft]).2

/-- The part of case `"commit"` behind the draft handling: the plain commit. -/
def plainCommit (env : Env) (st : State) (args : List String) : Outcome :=
  if args.length = 1 then .next (printlnOutput env st (git ["commit"])).2
  else
    let (flags, st1) := commitFlags st ["--allow-empty-message"] (args.drop 1)
    .next (printlnOutput env st1 (git (["commit"] ++ flags))).2

/-- The case `"commit"`.  In the branch with a draft and further arguments
the commit runs beside the timed removal of the draft; the trace lists the
invocation where it starts, then the removal, then the report. -/
def caseCommit (env : Env) (st : State) (args : List String) : Outcome :=
  match draftFile env st with
  | (.error _, st1) => plainCommit env st1 args
  | (.ok draft, st1) =>
    match fileExists st1 draft with
    | .error e => .panic e st1
    | .ok false => plainCommit env st1 args
    | .ok true =>
      if args.length = 1 then
        match fileGetContents st1 draft with
        | .error e => .panic e st1
        | .ok msg =>
          .next (osRemove env (printlnOutput env st1 (git ["commit", "-m", msg])).2 draft)
      else
        let (r, st2) := Output env st1 (git ["commit", "-t", draft])
        .next (println (osRemove env st2 draft) r).2

/-- The case `"ci", "checkin"`. -/
def caseCheckin (env : Env) (st : State) (args : List String) : Outcome :=
  match printlnOutput env st (git ["add", "."]) with
  | (some _, st1) => .next st1
  | (none, st1) =>
    let joined := stringsJoin (args.drop 1) " "
    let (msg, st2) :=
      if joined = "" then scanText (st1.log (.print ("enter commit message (optional):" ++ "\n")))
      else (joined, st1)
    match printlnOutput env st2 (git ["commit", "--allow-empty-message", "-m", msg]) with
    | (none, st3) => .next (printlnOutput env st3 (git ["push"])).2
    | (some _, st3) => .next st3

/-- The case `"log", "diff", "show"`.  The first program is built before
`pager()` is called, and no program is started when `pager()` panics. -/
def casePager (env : Env) (st : State) (store : Store) (args : Slice) : Outcome :=
  let (store1, args1) := injectColor store args
  let first := git (args1.elems store1)
  match pager env st with
  | (.error e, st1) => .panic e st1
  | (.ok second, st1) => .next (AttachWithPipe env st1 first second).2

/-- The tokens of a line and the alias rule: `strings.Split` at the space,
and a first token `git` is sliced off. -/
def tokenize (line : String) : Store × Slice :=
  let (store, args) := splitSlice line ' '
  if args.index store 0 = "git" then (store, args.sliceFrom 1) else (store, args)

/-- The tokens the switch works with: the elements of `args` after the alias
rule. -/
def commandLine (line : String) : List String :=
  (tokenize line).2.elems (tokenize line).1

/-- The switch over `strings.TrimSpace(args[0])`. -/
def switchArgs (env : Env) (st : State) (store : Store) (args : Slice) : Outcome :=
  let name := stringsTrimSpace (args.index store 0)
  if name = "" then .next st
  else if name = "cd" then caseCd env st (args.elems store)
  else if name = "exit" ∨ name = "quit" then .quit st
  else if name = "draft" then caseDraft env st
  else if name = "commit" then caseCommit env st (args.elems store)
  else if name = "ci" ∨ name = "checkin" then caseCheckin env st (args.elems store)
  else if name = "log" ∨ name = "diff" ∨ name = "show" then casePager env st store args
  else .next (Attach env st (git (args.elems store))).2

/-- The body of the loop for one line that was read, up to label `there`. -/
def dispatch (env : Env) (st : State) (line : String) : Outcome :=
  let (store, args) := tokenize line
  if args.len = 0 then .next st
  else switchArgs env st store args

/-- How a run of the program ends. -/
inductive Run where
  /-- The loop was left and `main` returned. -/
  | returned (st : State)
  /-- The process was terminated by a panic. -/
  | panicked (msg : String) (st : State)
  /-- The fuel of the model ran out with the loop still going. -/
  | more (st : State)
  deriving DecidableEq, Repr

/-- The end of `main` behind the loop: a last line feed. -/
def finish (st : State) : Run :=
  .returned (st.log (.print "\n"))

/-- The loop `for scanner.Scan()`: read a line, run the body, render the
prompt. -/
def mainLoop (env : Env) : Nat → State → Run
  | 0, st => .more st
  | fuel + 1, st =>
    match st.input with
    | [] => finish st
    | line :: rest =>
      match dispatch env { st with input := rest } line with
      | .quit st1 => finish st1
      | .panic msg st1 => .panicked msg st1
      | .next st1 =>
        match prompt env st1 with
        | .next st2 => mainLoop env fuel st2
        | .quit st2 => finish st2
        | .panic msg st2 => .panicked msg st2

/-- The function `main` without the interrupt handler: the first prompt, then
the loop.  Every turn of the loop reads a line, so the number of lines is
fuel enough. -/
def main (env : Env) (st : State) : Run :=
  match prompt env st with
  | .next st1 => mainLoop env (st1.input.length + 1) st1
  | .quit st1 => finish st1
  | .panic msg st1 => .panicked msg st1

/-- The invocations of programs in a trace, in order, each with its argument
vector and whether it succeeded. -/
def calls : List Event → List (List String × Bool)
  | [] => []
  | .output argv e :: rest => (argv, e.isNone) :: calls rest
  | .attach argv e :: rest => (argv, e.isNone) :: calls rest
  | .start argv e :: rest => (argv, e.isNone) :: calls rest
  | _ :: rest => calls rest

/-- What line 447 makes of the elements of `args`: with two or more elements
the inner `append` writes the flag over the second element before the outer
`append` reads it. -/
def colorInjected : List String → List String
  | [] => ["--color"]
  | [c] => [c, "--color"]
  | c :: _ :: rest => c :: "--color" :: "--color" :: rest

/-! ## A sample environment -/

/-- An environment in which everything succeeds: the tool answers with a
work tree `/w`, branches `dev` and `main` with `main` selected, an editor
`vi` and the pager `less`. -/
def sampleEnv : Env where
  run := fun _ argv =>
    if argv = ["git", "worktree", "list", "--porcelain"] then ⟨"worktree /w\nHEAD 0\n", "", none⟩
    else if argv = ["git", "branch"] then ⟨"  dev\n* main\n", "", none⟩
    else if argv = ["git", "config", "core.pager"] then ⟨"less\n", "", none⟩
    else if argv = ["git", "config", "core.editor"] then ⟨"vi\n", "", none⟩
    else ⟨"", "", none⟩
  attached := fun _ _ => none
  start := fun _ _ => none
  wait := fun _ _ => none
  chdir := fun _ _ => none
  getwd := fun _ => .ok "/w/src"
  remove := fun _ _ => none
  pathSeparator := "/"

/-- The sample environment with `core.pager` unset: the query for it exits
with status 1. -/
def noPagerEnv : Env :=
  { sampleEnv with
    run := fun tr argv =>
      if argv = ["git", "config", "core.pager"] then ⟨"", "", some "exit status 1"⟩
      else sampleEnv.run tr argv }

/-- The sample environment with a first program of the pipe chain that exits
with a failure. -/
def failingWaitEnv : Env :=
  { sampleEnv with
    wait := fun _ argv => if argv.head? = some "git" then some "exit status 128" else none }

/-- The sample environment with a commit that fails. -/
def failingCommitEnv : Env :=
  { sampleEnv with
    run := fun tr argv =>
      if argv.take 2 = ["git", "commit"] then ⟨"", "nothing to commit", some "exit status 1"⟩
      else sampleEnv.run tr argv }

/-- The sample environment with a draft that cannot be removed. -/
def failingRemoveEnv : Env :=
  { sampleEnv with remove := fun _ _ => some "remove: permission denied" }

/-- A session at its start with the given lines of input and files. -/
def startState (input : List String) (files : List (String × File)) : State :=
  { trace := [], input := input, files := files }

/-! ## Facts about the library functions -/

theorem splitChars_ne_nil (sep : Char) (cs : List Char) : splitChars sep cs ≠ [] := by
  cases cs with
  | nil => simp [splitChars]
  | cons c cs =>
    by_cases h : c = sep
    · simp [splitChars, h]
    · simp only [splitChars, h, if_false]
      cases splitChars sep cs <;> simp

theorem splitChars_append_sep (sep : Char) (w rest : List Char) (hw : sep ∉ w) :
    splitChars sep (w ++ sep :: rest) = w :: splitChars sep rest := by
  induction w with
  | nil => simp [splitChars]
  | cons c w ih =>
    have hc : c ≠ sep := fun h => hw (by simp [h])
    have hw2 : sep ∉ w := fun h => hw (by simp [h])
    simp [splitChars, hc, ih hw2]

theorem splitChars_no_sep (sep : Char) (cs : List Char) :
    ∀ t ∈ splitChars sep cs, sep ∉ t := by
  induction cs with
  | nil => simp [splitChars]
  | cons c cs ih =>
    by_cases h : c = sep
    · intro t ht
      simp only [splitChars, h, if_true, List.mem_cons] at ht
      rcases ht with rfl | ht
      · simp
      · exact ih t ht
    · intro t ht
      simp only [splitChars, h, if_false] at ht
      cases hs : splitChars sep cs with
      | nil => exact absurd hs (splitChars_ne_nil sep cs)
      | cons u us =>
        rw [hs] at ht ih
        simp only [List.mem_cons] at ht
        rcases ht with rfl | ht
        · intro hmem
          simp only [List.mem_cons] at hmem
          rcases hmem with hmem | hmem
          · exact h hmem.symm
          · exact ih u (by simp) hmem
        · exact ih t (by simp [ht])

theorem stringsJoin_splitChars (cs : List Char) :
    (stringsJoin ((splitChars ' ' cs).map String.mk) " ").data = cs := by
  induction cs with
  | nil => simp [splitChars, stringsJoin]
  | cons c cs ih =>
    cases hs : splitChars ' ' cs with
    | nil => exact absurd hs (splitChars_ne_nil ' ' cs)
    | cons u us =>
      rw [hs] at ih
      by_cases h : c = ' '
      · subst h
        simp only [splitChars, if_true, hs, List.map_cons, stringsJoin, String.data_append]
        simp only [List.map_cons] at ih
        rw [ih]
        rfl
      · simp only [splitChars, h, if_false, hs, List.map_cons]
        cases us with
        | nil =>
          simp only [List.map_nil, List.map_cons, stringsJoin] at ih ⊢
          simp [← ih]
        | cons v vs =>
          simp only [List.map_cons, stringsJoin, String.data_append] at ih ⊢
          simp [← ih]

theorem stringsSplit_git (s : String) :
    stringsSplit ("git " ++ s) ' ' = "git" :: stringsSplit s ' ' := by
  have h : ("git " ++ s).data = ['g', 'i', 't'] ++ ' ' :: s.data := by
    simp [String.data_append]
  simp only [stringsSplit, h]
  rw [splitChars_append_sep ' ' ['g', 'i', 't'] s.data (by decide)]
  rfl

theorem stringsSplit_space (s : String) :
    stringsSplit (" " ++ s) ' ' = "" :: stringsSplit s ' ' := by
  have h : (" " ++ s).data = [] ++ ' ' :: s.data := by
    simp [String.data_append]
  simp only [stringsSplit, h]
  rw [splitChars_append_sep ' ' [] s.data (by simp)]
  rfl

theorem stringsSplit_ne_nil (s : String) (sep : Char) : stringsSplit s sep ≠ [] := by
  simp [stringsSplit, splitChars_ne_nil]

theorem intercalate_go (sep acc : String) (xs : List String) :
    String.intercalate.go acc sep xs =
      match xs with
      | [] => acc
      | b :: bs => acc ++ sep ++ stringsJoin (b :: bs) sep := by
  induction xs generalizing acc with
  | nil => rfl
  | cons b bs ih =>
    rw [String.intercalate.go, ih]
    cases bs with
    | nil => rfl
    | cons c cs => simp [stringsJoin, String.append_assoc]

theorem stringsJoin_eq_intercalate (xs : List String) (sep : String) :
    stringsJoin xs sep = String.intercalate sep xs := by
  cases xs with
  | nil => rfl
  | cons a as =>
    rw [String.intercalate, intercalate_go]
    cases as with
    | nil => rfl
    | cons b bs => simp [stringsJoin, String.append_assoc]

theorem splitChars_of_no_sep (sep : Char) (w : List Char) (hw : sep ∉ w) :
    splitChars sep w = [w] := by
  induction w with
  | nil => rfl
  | cons c w ih =>
    have hc : c ≠ sep := fun h => hw (by simp [h])
    have hw2 : sep ∉ w := fun h => hw (by simp [h])
    simp [splitChars, hc, ih hw2]

theorem stringsSplit_stringsJoin (toks : List String) (hne : toks ≠ [])
    (hsp : ∀ t ∈ toks, ' ' ∉ t.data) :
    stringsSplit (stringsJoin toks " ") ' ' = toks := by
  induction toks with
  | nil => exact absurd rfl hne
  | cons a as ih =>
    have ha : ' ' ∉ a.data := hsp a (by simp)
    cases as with
    | nil =>
      simp only [stringsJoin, stringsSplit, splitChars_of_no_sep ' ' a.data ha, List.map_cons,
        List.map_nil]
    | cons b bs =>
      have hrest := ih (by simp) (fun t ht => hsp t (by simp [ht]))
      have hd : (stringsJoin (a :: b :: bs) " ").data =
          a.data ++ ' ' :: (stringsJoin (b :: bs) " ").data := by
        simp [stringsJoin, String.data_append]
      simp only [stringsSplit] at hrest ⊢
      rw [hd, splitChars_append_sep ' ' a.data _ ha, List.map_cons, hrest]

theorem stringsSplit_intercalate (toks : List String) (hne : toks ≠ [])
    (hsp : ∀ t ∈ toks, ' ' ∉ t.data) :
    stringsSplit (String.intercalate " " toks) ' ' = toks := by
  rw [← stringsJoin_eq_intercalate]
  exact stringsSplit_stringsJoin toks hne hsp

theorem stringsSplit_no_space (line : String) : ∀ t ∈ stringsSplit line ' ', ' ' ∉ t.data := by
  intro t ht
  simp only [stringsSplit, List.mem_map] at ht
  obtain ⟨u, hu, rfl⟩ := ht
  exact splitChars_no_sep ' ' line.data u hu

theorem intercalate_stringsSplit (line : String) :
    String.intercalate " " (stringsSplit line ' ') = line := by
  rw [← stringsJoin_eq_intercalate]
  apply String.ext
  exact stringsJoin_splitChars line.data

theorem first_token_git (s : String) (h : (stringsSplit s ' ').head? = some "git") :
    s = "git" ∨ "git ".data <+: s.data := by
  have hj := intercalate_stringsSplit s
  rw [← stringsJoin_eq_intercalate] at hj
  cases hs : stringsSplit s ' ' with
  | nil => exact absurd hs (stringsSplit_ne_nil s ' ')
  | cons t ts =>
    rw [hs] at h hj
    simp only [List.head?_cons, Option.some.injEq] at h
    subst h
    cases ts with
    | nil =>
      left
      exact hj.symm
    | cons u us =>
      right
      rw [← hj]
      simp only [stringsJoin, String.data_append]
      exact ⟨(stringsJoin (u :: us) " ").data, by simp⟩

/-! ## Facts about the tokens and the statement of line 447 -/

theorem take_drop_window (pre xs post : List String) :
    ((pre ++ (xs ++ post)).drop pre.length).take xs.length = xs := by
  simp

theorem injectColor_two (pre rest : List String) (c a : String) :
    injectColor [pre ++ c :: a :: rest] ⟨0, pre.length, rest.length + 2, rest.length + 2⟩ =
      ([pre ++ c :: "--color" :: rest, c :: "--color" :: "--color" :: rest],
        ⟨1, 0, rest.length + 3, rest.length + 3⟩) := by
  have t1 : (pre ++ c :: a :: rest).take (pre.length + 1) = pre ++ [c] := by
    have : pre ++ c :: a :: rest = (pre ++ [c]) ++ (a :: rest) := by simp
    rw [this, List.take_left' (by simp)]
  have d1 : (pre ++ c :: a :: rest).drop (pre.length + 1 + 1) = rest := by
    have : pre ++ c :: a :: rest = (pre ++ [c, a]) ++ rest := by simp
    rw [this, List.drop_left' (by simp)]
  have step1 : goAppend [pre ++ c :: a :: rest] ⟨0, pre.length, 1, rest.length + 2⟩ ["--color"] =
      ([pre ++ c :: "--color" :: rest], ⟨0, pre.length, 2, rest.length + 2⟩) := by
    simp [goAppend, t1, d1]
  have w1 : ((pre ++ c :: "--color" :: rest).drop (pre.length + 1)).take (rest.length + 1) =
      "--color" :: rest := by
    have : pre ++ c :: "--color" :: rest = (pre ++ [c]) ++ (("--color" :: rest) ++ []) := by simp
    rw [this]
    have h := take_drop_window (pre ++ [c]) ("--color" :: rest) []
    simp
  have w2 : ((pre ++ c :: "--color" :: rest).drop pre.length).take 2 = [c, "--color"] := by
    simp
  have step2 : goAppend [pre ++ c :: "--color" :: rest] ⟨0, pre.length, 2, rest.length + 2⟩
      ("--color" :: rest) =
      ([pre ++ c :: "--color" :: rest, c :: "--color" :: "--color" :: rest],
        ⟨1, 0, rest.length + 3, rest.length + 3⟩) := by
    have hlt : ¬ (2 + (rest.length + 1) ≤ rest.length + 2) := by omega
    simp only [goAppend, List.length_cons, hlt, if_false, Slice.elems, List.getD_cons_zero, w2]
    simp
  simp only [injectColor, Slice.sliceTo, Slice.sliceFrom, step1, Slice.elems]
  simp only [List.getD_cons_zero, Nat.add_sub_cancel, w1, step2]
  have : rest.length + 2 - 1 = rest.length + 1 := by omega
  simp only [this, w1, step2]

theorem injectColor_elems (pre xs : List String) :
    (injectColor [pre ++ xs] ⟨0, pre.length, xs.length, xs.length⟩).2.elems
      (injectColor [pre ++ xs] ⟨0, pre.length, xs.length, xs.length⟩).1 = colorInjected xs := by
  match xs with
  | [] => simp [injectColor, goAppend, Slice.sliceTo, Slice.sliceFrom, Slice.elems, colorInjected]
  | [c] => simp [injectColor, goAppend, Slice.sliceTo, Slice.sliceFrom, Slice.elems, colorInjected]
  | c :: a :: rest =>
    have h := injectColor_two pre rest c a
    simp only [List.length_cons] at h ⊢
    rw [h]
    simp [Slice.elems, colorInjected]

theorem elems_window (pre xs : List String) :
    Slice.elems [pre ++ xs] ⟨0, pre.length, xs.length, xs.length⟩ = xs := by
  simp [Slice.elems]

theorem elems_full (xs : List String) :
    Slice.elems [xs] ⟨0, 0, xs.length, xs.length⟩ = xs := by
  simp [Slice.elems]

theorem tokenize_window (line : String) :
    ∃ pre, tokenize line =
      ([pre ++ commandLine line],
        ⟨0, pre.length, (commandLine line).length, (commandLine line).length⟩) := by
  cases hs : stringsSplit line ' ' with
  | nil => exact absurd hs (stringsSplit_ne_nil line ' ')
  | cons t ts =>
    by_cases hg : t = "git"
    · refine ⟨[t], ?_⟩
      have ht : tokenize line = ([t :: ts], ⟨0, 1, ts.length, ts.length⟩) := by
        simp [tokenize, splitSlice, hs, Slice.index, Slice.elems, Slice.sliceFrom, hg]
      have hc : commandLine line = ts := by
        simp [commandLine, ht, Slice.elems]
      rw [hc, ht]
      rfl
    · refine ⟨[], ?_⟩
      have ht : tokenize line = ([t :: ts], ⟨0, 0, ts.length + 1, ts.length + 1⟩) := by
        simp [tokenize, splitSlice, hs, Slice.index, Slice.elems, Slice.sliceFrom, hg]
      have hc : commandLine line = t :: ts := by
        simp [commandLine, ht, Slice.elems]
      rw [hc, ht]
      rfl

theorem commandLine_git (s : String) : commandLine ("git " ++ s) = stringsSplit s ' ' := by
  simp [commandLine, tokenize, splitSlice, stringsSplit_git, Slice.index, Slice.elems,
    Slice.sliceFrom]

theorem commandLine_plain (s : String) (h : (stringsSplit s ' ').head? ≠ some "git") :
    commandLine s = stringsSplit s ' ' := by
  cases hs : stringsSplit s ' ' with
  | nil => exact absurd hs (stringsSplit_ne_nil s ' ')
  | cons t ts =>
    have hg : t ≠ "git" := by
      intro ht
      apply h
      simp [hs, ht]
    simp [commandLine, tokenize, splitSlice, hs, Slice.index, Slice.elems, Slice.sliceFrom, hg]

theorem commandLine_eq (line : String) :
    commandLine line =
      if (stringsSplit line ' ').head? = some "git" then (stringsSplit line ' ').tail
      else stringsSplit line ' ' := by
  cases hs : stringsSplit line ' ' with
  | nil => exact absurd hs (stringsSplit_ne_nil line ' ')
  | cons t ts =>
    by_cases hg : t = "git"
    · simp [commandLine, tokenize, splitSlice, hs, Slice.index, Slice.elems, Slice.sliceFrom, hg]
    · simp [commandLine, tokenize, splitSlice, hs, Slice.index, Slice.elems, Slice.sliceFrom, hg]

theorem switchArgs_window (env : Env) (st : State) (pre xs : List String) :
    switchArgs env st [pre ++ xs] ⟨0, pre.length, xs.length, xs.length⟩ =
      switchArgs env st [xs] ⟨0, 0, xs.length, xs.length⟩ := by
  have e1 := elems_window pre xs
  have e2 := elems_full xs
  have c1 := injectColor_elems pre xs
  have c2 := injectColor_elems [] xs
  simp only [List.nil_append, List.length_nil] at c2
  simp only [switchArgs, casePager, Slice.index, e1, e2, c1, c2]

theorem dispatch_commandLine (env : Env) (st : State) (line : String) :
    dispatch env st line =
      if commandLine line = [] then .next st
      else switchArgs env st [commandLine line]
        ⟨0, 0, (commandLine line).length, (commandLine line).length⟩ := by
  obtain ⟨pre, h⟩ := tokenize_window line
  simp only [dispatch, h, switchArgs_window]
  by_cases hc : commandLine line = []
  · simp [hc]
  · have : (commandLine line).length ≠ 0 := by
      intro h0
      exact hc (List.length_eq_zero.mp h0)
    simp [hc, this]

/-! ## Facts about traces and the helper functions -/

theorem stringsHasPrefix_append (p r : String) : stringsHasPrefix (p ++ r) p = true := by
  simp [stringsHasPrefix, String.data_append]

theorem stringsTrimPrefix_append (p r : String) : stringsTrimPrefix (p ++ r) p = r := by
  simp [stringsTrimPrefix, stringsHasPrefix_append, String.data_append]

theorem firstMarked_none (ls : List String)
    (h : ∀ ln ∈ ls, stringsHasPrefix ln "* " = false) : firstMarked ls = "" := by
  induction ls with
  | nil => rfl
  | cons l ls ih =>
    have hl : stringsHasPrefix l "* " = false := h l (by simp)
    simp only [firstMarked, hl]
    exact ih (fun ln hln => h ln (by simp [hln]))

theorem firstMarked_hit (pre post : List String) (rest : String)
    (h : ∀ ln ∈ pre, stringsHasPrefix ln "* " = false) :
    firstMarked (pre ++ ("* " ++ rest) :: post) = rest := by
  induction pre with
  | nil => simp [firstMarked, stringsHasPrefix_append, stringsTrimPrefix_append]
  | cons l pre ih =>
    have hl : stringsHasPrefix l "* " = false := h l (by simp)
    simp only [List.cons_append, firstMarked, hl]
    exact ih (fun ln hln => h ln (by simp [hln]))

theorem calls_append (a b : List Event) : calls (a ++ b) = calls a ++ calls b := by
  induction a with
  | nil => rfl
  | cons e a ih => cases e <;> simp [calls, ih]

theorem println_fst (st : State) (r : Result) : (println st r).1 = r.err := rfl

theorem println_input (st : State) (r : Result) : (println st r).2.input = st.input := by
  simp only [println, State.log]
  cases r.err <;> split_ifs <;> rfl

theorem println_files (st : State) (r : Result) : (println st r).2.files = st.files := by
  simp only [println, State.log]
  cases r.err <;> split_ifs <;> rfl

theorem println_calls (st : State) (r : Result) :
    calls (println st r).2.trace = calls st.trace := by
  simp only [println, State.log]
  cases r.err <;> split_ifs <;> simp [calls_append, calls]

theorem printlnOutput_fst (env : Env) (st : State) (argv : List String) :
    (printlnOutput env st argv).1 = (env.run st.trace argv).err := rfl

theorem printlnOutput_input (env : Env) (st : State) (argv : List String) :
    (printlnOutput env st argv).2.input = st.input := by
  simp [printlnOutput, Output, println_input, State.log]

theorem printlnOutput_files (env : Env) (st : State) (argv : List String) :
    (printlnOutput env st argv).2.files = st.files := by
  simp [printlnOutput, Output, println_files, State.log]

theorem printlnOutput_calls (env : Env) (st : State) (argv : List String) :
    calls (printlnOutput env st argv).2.trace =
      calls st.trace ++ [(argv, (env.run st.trace argv).err.isNone)] := by
  simp [printlnOutput, Output, println_calls, State.log, calls_append, calls]

theorem gitDir_snd (env : Env) (st : State) :
    (gitDir env st).2 = st.log (.output (git ["worktree", "list", "--porcelain"])
      (env.run st.trace (git ["worktree", "list", "--porcelain"])).err) := by
  simp only [gitDir, Output]
  cases (env.run st.trace (git ["worktree", "list", "--porcelain"])).err <;> rfl

theorem draftFile_snd (env : Env) (st : State) :
    (draftFile env st).2 = st.log (.output (git ["worktree", "list", "--porcelain"])
      (env.run st.trace (git ["worktree", "list", "--porcelain"])).err) := by
  rw [← gitDir_snd]
  simp only [draftFile]
  cases h : gitDir env st with
  | mk d st1 => cases d <;> rfl

theorem draftFile_ok_run (env : Env) (st : State) (d : String)
    (h : (draftFile env st).1 = .ok d) :
    (env.run st.trace (git ["worktree", "list", "--porcelain"])).err = none := by
  cases hr : (env.run st.trace (git ["worktree", "list", "--porcelain"])).err with
  | none => rfl
  | some e =>
    simp [draftFile, gitDir, Output, hr] at h

theorem scanText_fst (st : State) : (scanText st).1 = st.input.headD "" := by
  simp only [scanText]
  cases st.input <;> rfl

theorem commitFlags_spec (st : State) (flags pre post : List String) (hpre : "-m" ∉ pre) :
    commitFlags st flags (pre ++ "-m" :: post) =
      if post ≠ [] then (flags ++ pre ++ ["-m", stringsJoin post " "], st)
      else
        (flags ++ pre ++
            ["-m", (scanText (st.log (.print ("enter commit message (optional):" ++ "\n")))).1],
          (scanText (st.log (.print ("enter commit message (optional):" ++ "\n")))).2) := by
  induction pre generalizing flags with
  | nil => simp [commitFlags]
  | cons a pre ih =>
    have ha : a ≠ "-m" := fun h => hpre (by simp [h])
    have hp : "-m" ∉ pre := fun h => hpre (by simp [h])
    have hstep : commitFlags st flags (a :: (pre ++ "-m" :: post)) =
        commitFlags st (flags ++ [a]) (pre ++ "-m" :: post) := by
      simp [commitFlags, ha]
    rw [List.cons_append, hstep, ih (flags ++ [a]) hp]
    simp

theorem caseCommit_plain (env : Env) (st : State) (args : List String)
    (hdraft : ∀ d, (draftFile env st).1 = .ok d →
      fileExists (draftFile env st).2 d = .ok false) :
    caseCommit env st args = plainCommit env (draftFile env st).2 args := by
  simp only [caseCommit]
  cases h : draftFile env st with
  | mk d st1 =>
    rw [h] at hdraft
    cases d with
    | error e => rfl
    | ok draft =>
      have := hdraft draft rfl
      simp only at this
      simp only [this]

theorem switchArgs_commit (env : Env) (st : State) (c : String) (xs : List String)
    (hc : stringsTrimSpace c = "commit") :
    switchArgs env st [c :: xs] ⟨0, 0, (c :: xs).length, (c :: xs).length⟩ =
      caseCommit env st (c :: xs) := by
  have e := elems_full (c :: xs)
  simp only [switchArgs, Slice.index, e, List.getD_cons_zero, hc]
  simp

theorem scanText_trace (st : State) : (scanText st).2.trace = st.trace := by
  simp only [scanText]
  cases st.input <;> rfl

theorem lookup_filter_ne (files : List (String × File)) (d : String) :
    (files.filter (fun f => f.1 ≠ d)).lookup d = none := by
  induction files with
  | nil => rfl
  | cons f files ih =>
    obtain ⟨a, b⟩ := f
    by_cases h : a = d
    · have hf : List.filter (fun f => decide (f.1 ≠ d)) ((a, b) :: files) =
          List.filter (fun f => decide (f.1 ≠ d)) files := by
        apply List.filter_cons_of_neg
        simp [h]
      rw [hf, ih]
    · have hf : List.filter (fun f => decide (f.1 ≠ d)) ((a, b) :: files) =
          (a, b) :: List.filter (fun f => decide (f.1 ≠ d)) files := by
        apply List.filter_cons_of_pos
        simp [h]
      have hb : (d == a) = false := by
        simp only [beq_eq_false_iff_ne, ne_eq]
        exact fun e => h e.symm
      rw [hf, List.lookup_cons, hb, ih]

theorem fileExists_osRemove (env : Env) (st : State) (d : String)
    (h : env.remove st.trace d = none) : fileExists (osRemove env st d) d = .ok false := by
  simp only [fileExists, osRemove, h, Option.isNone_none, if_true, lookup_filter_ne]

theorem osRemove_files_of_error (env : Env) (st : State) (d e : String)
    (h : env.remove st.trace d = some e) : (osRemove env st d).files = st.files := by
  simp [osRemove, h]

theorem osRemove_input (env : Env) (st : State) (d : String) :
    (osRemove env st d).input = st.input := rfl

theorem osRemove_calls (env : Env) (st : State) (d : String) :
    calls (osRemove env st d).trace = calls st.trace := by
  simp [osRemove, calls_append, calls]

theorem switchArgs_checkin (env : Env) (st : State) (c : String) (xs : List String)
    (hc : stringsTrimSpace c = "ci" ∨ stringsTrimSpace c = "checkin") :
    switchArgs env st [c :: xs] ⟨0, 0, (c :: xs).length, (c :: xs).length⟩ =
      caseCheckin env st (c :: xs) := by
  have e := elems_full (c :: xs)
  rcases hc with hc | hc <;>
  · simp only [switchArgs, Slice.index, e, List.getD_cons_zero, hc]
    simp

theorem dispatch_pager (env : Env) (st : State) (line c : String) (rest : List String)
    (hline : commandLine line = c :: rest)
    (hc : stringsTrimSpace c = "log" ∨ stringsTrimSpace c = "diff" ∨
      stringsTrimSpace c = "show") :
    dispatch env st line =
      match pager env st with
      | (.error e, st1) => .panic e st1
      | (.ok second, st1) =>
        .next (AttachWithPipe env st1 (git (colorInjected (c :: rest))) second).2 := by
  rw [dispatch_commandLine, hline]
  simp only [List.cons_ne_nil, if_false, reduceCtorEq]
  have e := elems_full (c :: rest)
  have ci := injectColor_elems [] (c :: rest)
  simp only [List.nil_append, List.length_nil, List.length_cons] at ci
  rcases hc with hc | hc | hc <;>
  · simp only [switchArgs, Slice.index, e, List.getD_cons_zero, hc]
    simp [casePager, ci]

theorem pager_error (env : Env) (st : State) (e : String)
    (he : (env.run st.trace (git ["config", "core.pager"])).err = some e) :
    pager env st = (.error e, st.log (.output (git ["config", "core.pager"]) (some e))) := by
  simp [pager, config, Output, he]

theorem AttachWithPipe_wait_failure (env : Env) (st : State) (c pipe : List String)
    (e : String)
    (h1 : env.start st.trace c = none)
    (h2 : env.start (st.trace ++ [.start c none]) pipe = none)
    (h3 : env.wait (st.trace ++ [.start c none, .start pipe none]) c = some e) :
    AttachWithPipe env st c pipe =
      (some e,
        { st with trace := st.trace ++ [.start c none, .start pipe none, .wait c (some e)] }) := by
  simp [AttachWithPipe, State.log, h1, h2, h3]

/-! ## The loop reads a line at every turn -/

theorem scanText_input_le (st : State) : (scanText st).2.input.length ≤ st.input.length := by
  simp only [scanText]
  cases h : st.input with
  | nil => simp [h]
  | cons l rest => simp

theorem commitFlags_input_le (st : State) (flags xs : List String) :
    (commitFlags st flags xs).2.input.length ≤ st.input.length := by
  induction xs generalizing flags with
  | nil => simp [commitFlags]
  | cons a xs ih =>
    by_cases ha : a = "-m"
    · by_cases hx : xs = []
      · simp only [commitFlags, ha, hx, if_true, ne_eq, not_true_eq_false, if_false]
        exact scanText_input_le _
      · simp [commitFlags, ha, hx]
    · simp only [commitFlags, ha, if_false]
      exact ih _

theorem AttachWithPipe_input (env : Env) (st : State) (c pipe : List String) :
    (AttachWithPipe env st c pipe).2.input = st.input := by
  simp only [AttachWithPipe, State.log]
  cases env.start st.trace c with
  | some e => rfl
  | none =>
    simp only
    cases env.start (st.trace ++ [Event.start c none]) pipe with
    | some e => rfl
    | none =>
      simp only
      cases env.wait (st.trace ++ [Event.start c none] ++ [Event.start pipe none]) c with
      | some e => rfl
      | none => rfl

theorem draftFile_input (env : Env) (st : State) : (draftFile env st).2.input = st.input := by
  rw [draftFile_snd]
  rfl

theorem config_input (env : Env) (st : State) (param : String) :
    (config env st param).2.input = st.input := by
  simp only [config, Output, State.log]
  cases (env.run st.trace (git ["config", param])).err <;> rfl

theorem pager_input (env : Env) (st : State) : (pager env st).2.input = st.input := by
  have h := config_input env st "core.pager"
  simp only [pager]
  cases hc : config env st "core.pager" with
  | mk r st1 =>
    rw [hc] at h
    cases r <;> exact h

theorem branch_input (env : Env) (st : State) : (branch env st).2.input = st.input := by
  simp only [branch, Output, State.log]
  cases (env.run st.trace (git ["branch"])).err <;> rfl

theorem prompt_input (env : Env) (st : State) : (prompt env st).state.input = st.input := by
  simp only [prompt]
  cases env.getwd st.trace with
  | error e => rfl
  | ok cwd =>
    simp only
    have hg := gitDir_snd env st
    cases h : gitDir env st with
    | mk r st1 =>
      rw [h] at hg
      simp only at hg
      subst hg
      cases r with
      | error e => rfl
      | ok gwd =>
        simp only [Outcome.state, State.log, branch_input, Attach]

theorem plainCommit_input_le (env : Env) (st : State) (args : List String) :
    (plainCommit env st args).state.input.length ≤ st.input.length := by
  simp only [plainCommit]
  split_ifs
  · simp [Outcome.state, printlnOutput_input]
  · simp only [Outcome.state, printlnOutput_input]
    exact commitFlags_input_le _ _ _

theorem caseCommit_input_le (env : Env) (st : State) (args : List String) :
    (caseCommit env st args).state.input.length ≤ st.input.length := by
  have hi := draftFile_input env st
  simp only [caseCommit]
  cases h : draftFile env st with
  | mk r st1 =>
    rw [h] at hi
    simp only at hi
    cases r with
    | error e =>
      simp only
      rw [← hi]
      exact plainCommit_input_le env st1 args
    | ok draft =>
      simp only
      cases fileExists st1 draft with
      | error e => simp [Outcome.state, hi]
      | ok b =>
        cases b with
        | false =>
          simp only
          rw [← hi]
          exact plainCommit_input_le env st1 args
        | true =>
          simp only
          split_ifs
          · cases fileGetContents st1 draft with
            | error e => simp [Outcome.state, hi]
            | ok msg => simp [Outcome.state, osRemove_input, printlnOutput_input, hi]
          · simp [Outcome.state, println_input, osRemove_input, Output, State.log, hi]

theorem caseCheckin_input_le (env : Env) (st : State) (args : List String) :
    (caseCheckin env st args).state.input.length ≤ st.input.length := by
  have hi1 := printlnOutput_input env st (git ["add", "."])
  simp only [caseCheckin]
  cases h1 : printlnOutput env st (git ["add", "."]) with
  | mk e1 s1 =>
    rw [h1] at hi1
    simp only at hi1
    cases e1 with
    | some e => simp [Outcome.state, hi1]
    | none =>
      simp only
      have hle : ∀ q : String × State,
          q = (if stringsJoin (List.drop 1 args) " " = "" then
              scanText (s1.log (.print ("enter commit message (optional):" ++ "\n")))
            else (stringsJoin (List.drop 1 args) " ", s1)) →
          q.2.input.length ≤ st.input.length := by
        intro q hq
        split_ifs at hq
        · rw [hq, ← hi1]
          exact scanText_input_le _
        · rw [hq, ← hi1]
      generalize (if stringsJoin (List.drop 1 args) " " = "" then
              scanText (s1.log (.print ("enter commit message (optional):" ++ "\n")))
            else (stringsJoin (List.drop 1 args) " ", s1)) = q at hle
      obtain ⟨msg, st2⟩ := q
      have h2 := hle (msg, st2) rfl
      simp only at h2 ⊢
      have hi3 := printlnOutput_input env st2 (git ["commit", "--allow-empty-message", "-m", msg])
      cases h3 : printlnOutput env st2 (git ["commit", "--allow-empty-message", "-m", msg]) with
      | mk e3 s3 =>
        rw [h3] at hi3
        simp only at hi3
        cases e3 with
        | some e => simpa [Outcome.state, hi3] using h2
        | none => simpa [Outcome.state, printlnOutput_input, hi3] using h2

theorem switchArgs_input_le (env : Env) (st : State) (store : Store) (args : Slice) :
    (switchArgs env st store args).state.input.length ≤ st.input.length := by
  simp only [switchArgs]
  split_ifs
  · simp [Outcome.state]
  · simp only [caseCd]
    split_ifs
    · cases env.chdir st.trace (stringsJoin (List.drop 1 (Slice.elems store args)) " ") <;>
        simp [Outcome.state, State.log]
    · simp [Outcome.state]
  · simp [Outcome.state]
  · simp only [caseDraft]
    have hi := draftFile_input env st
    cases h : draftFile env st with
    | mk r st1 =>
      rw [h] at hi
      simp only at hi
      cases r with
      | error e => simp [Outcome.state, println_input, hi]
      | ok draft =>
        simp only
        have hc := config_input env st1 "core.editor"
        cases h2 : config env st1 "core.editor" with
        | mk r2 st2 =>
          rw [h2] at hc
          simp only at hc
          cases r2 with
          | error e => simp [Outcome.state, println_input, hc, hi]
          | ok ed => simp [Outcome.state, Attach, State.log, hc, hi]
  · exact caseCommit_input_le env st _
  · exact caseCheckin_input_le env st _
  · simp only [casePager]
    have hp := pager_input env st
    cases h : pager env st with
    | mk r st1 =>
      rw [h] at hp
      simp only at hp
      cases r with
      | error e => simp [Outcome.state, hp]
      | ok second => simp [Outcome.state, AttachWithPipe_input, hp]
  · simp [Outcome.state, Attach, State.log]

theorem dispatch_input_le (env : Env) (st : State) (line : String) :
    (dispatch env st line).state.input.length ≤ st.input.length := by
  simp only [dispatch]
  split_ifs
  · simp [Outcome.state]
  · exact switchArgs_input_le env st _ _

theorem mainLoop_fuel (env : Env) (fuel : Nat) (st : State) (h : st.input.length < fuel) :
    ∀ s, mainLoop env fuel st ≠ .more s := by
  induction fuel generalizing st with
  | zero => omega
  | succ n ih =>
    intro s
    simp only [mainLoop]
    cases hin : st.input with
    | nil => simp [finish]
    | cons line rest =>
      simp only
      have hd := dispatch_input_le env { st with input := rest } line
      cases hdis : dispatch env { st with input := rest } line with
      | quit st1 => simp [finish]
      | panic msg st1 => simp
      | next st1 =>
        simp only
        rw [hdis] at hd
        simp only [Outcome.state] at hd
        have hp := prompt_input env st1
        cases hpr : prompt env st1 with
        | quit st2 => simp [finish]
        | panic msg st2 => simp
        | next st2 =>
          simp only
          rw [hpr] at hp
          simp only [Outcome.state] at hp
          apply ih
          rw [hp]
          rw [hin] at h
          simp only [List.length_cons] at h
          omega

theorem main_returns_or_panics (env : Env) (st : State) : ∀ s, main env st ≠ .more s := by
  intro s
  simp only [main]
  cases hpr : prompt env st with
  | quit st1 => simp [finish]
  | panic msg st1 => simp
  | next st1 =>
    simp only
    exact mainLoop_fuel env _ st1 (by omega) s

/-! ## The tokens of a line (C3, C9) -/

/-- C3, as the code has it: the line " status" has an empty first token and
nothing is dispatched for it, while "status" is forwarded to the tool, and
the doubled space of "log  -p" yields an empty token. -/
theorem leading_space_not_ignored :
    stringsSplit " status" ' ' = ["", "status"] ∧
    stringsSplit "log  -p" ' ' = ["log", "", "-p"] ∧
    dispatch sampleEnv (startState [] []) " status" = .next (startState [] []) ∧
    dispatch sampleEnv (startState [] []) "status" =
      .next ⟨[.attach ["git", "status"] none], [], []⟩ ∧
    dispatch sampleEnv (startState [] []) " status" ≠
      dispatch sampleEnv (startState [] []) "status" := by
  decide

/-- C3, amended: the tokens of a line are its pieces between single spaces,
empty pieces included.  Whenever a line is made of the pieces `toks`, none
of which contains a space, joined with single spaces, the switch works with
exactly these pieces (without the first one when it is `git`); every line is
made of such pieces; and a line that begins with a space is a no-op. -/
theorem tokens_split_at_single_spaces (env : Env) (st : State) (line : String)
    (toks : List String) :
    (toks ≠ [] → (∀ t ∈ toks, ' ' ∉ t.data) →
      commandLine (String.intercalate " " toks) =
        if toks.head? = some "git" then toks.tail else toks) ∧
    (∃ ts, ts ≠ [] ∧ (∀ t ∈ ts, ' ' ∉ t.data) ∧ String.intercalate " " ts = line) ∧
    dispatch env st (" " ++ line) = .next st := by
  refine ⟨?_, ?_, ?_⟩
  · intro hne hsp
    rw [commandLine_eq, stringsSplit_intercalate toks hne hsp]
  · exact ⟨stringsSplit line ' ', stringsSplit_ne_nil line ' ', stringsSplit_no_space line,
      intercalate_stringsSplit line⟩
  · have hc : commandLine (" " ++ line) = "" :: stringsSplit line ' ' := by
      rw [commandLine_plain _ (by simp [stringsSplit_space]), stringsSplit_space]
    rw [dispatch_commandLine, hc]
    simp [switchArgs, Slice.index, Slice.elems, stringsTrimSpace]

/-- C3 amended, at the lines `log  -p` (a doubled space) and `status ` (a
space at the end): both keep their empty tokens. -/
theorem tokens_split_at_single_spaces_witness :
    commandLine "log  -p" = ["log", "", "-p"] ∧
    commandLine "status " = ["status", ""] ∧
    dispatch sampleEnv (startState [] []) "log  -p" =
      .next ⟨[.output ["git", "config", "core.pager"] none,
        .start ["git", "log", "--color", "--color", "-p"] none,
        .start ["sh", "-c", "cat - | less"] none,
        .wait ["git", "log", "--color", "--color", "-p"] none,
        .closeWrite,
        .wait ["sh", "-c", "cat - | less"] none], [], []⟩ :=
  ⟨(tokens_split_at_single_spaces sampleEnv (startState [] []) "" ["log", "", "-p"]).1
      (by decide) (by decide),
    (tokens_split_at_single_spaces sampleEnv (startState [] []) "" ["status", ""]).1
      (by decide) (by decide),
    by decide⟩

/-- C9: a first token `git` is discarded, and only that one.  For a line made
of `git` and the pieces `toks` the switch works with exactly `toks`, also
when `toks` itself begins with `git`.  For a line `s` whose first token is
not `git` (it is not `git` and does not begin with `git` and a space), the
line `git s` is dispatched exactly as `s` is, and the line `git` alone is a
no-op. -/
theorem git_alias_stripped (env : Env) (st : State) (s : String) (toks : List String) :
    ((∀ t ∈ toks, ' ' ∉ t.data) →
      commandLine (String.intercalate " " ("git" :: toks)) = toks) ∧
    (s ≠ "git" → ¬ "git ".data <+: s.data →
      dispatch env st ("git " ++ s) = dispatch env st s) ∧
    dispatch env st "git" = .next st := by
  refine ⟨?_, ?_, ?_⟩
  · intro hsp
    have hsp2 : ∀ t ∈ "git" :: toks, ' ' ∉ t.data := by
      intro t ht
      simp only [List.mem_cons] at ht
      rcases ht with rfl | ht
      · decide
      · exact hsp t ht
    rw [commandLine_eq, stringsSplit_intercalate _ (by simp) hsp2]
    simp
  · intro h1 h2
    have h : (stringsSplit s ' ').head? ≠ some "git" := by
      intro hh
      rcases first_token_git s hh with h3 | h3
      · exact h1 h3
      · exact h2 h3
    rw [dispatch_commandLine, dispatch_commandLine, commandLine_git, commandLine_plain s h]
  · have hc : commandLine "git" = [] := by decide
    rw [dispatch_commandLine, hc]
    simp

/-- C9 at the lines `git git status`, where one `git` is left as the command,
and `git status`, which reaches the tool as `status` does. -/
theorem git_alias_stripped_witness :
    commandLine "git git status" = ["git", "status"] ∧
    dispatch sampleEnv (startState [] []) "git git status" =
      .next ⟨[.attach ["git", "git", "status"] none], [], []⟩ ∧
    dispatch sampleEnv (startState [] []) "git status" =
      dispatch sampleEnv (startState [] []) "status" ∧
    dispatch sampleEnv (startState [] []) "status" =
      .next ⟨[.attach ["git", "status"] none], [], []⟩ :=
  ⟨(git_alias_stripped sampleEnv (startState [] []) "status" ["git", "status"]).1 (by decide),
    by decide,
    (git_alias_stripped sampleEnv (startState [] []) "status" ["git", "status"]).2.1
      (by decide) (by decide),
    by decide⟩

/-! ## The branch of the prompt (C8) -/

/-- C8: `branch` on the answer `r` of the branch listing.  When the query
failed the result is the empty text; when no line of the output starts with
the marker the result is the empty text; when `"* " ++ rest` is the first
line that starts with the marker the result is `rest`. -/
theorem branch_extraction (env : Env) (st : State) (r : Result)
    (hr : env.run st.trace (git ["branch"]) = r) :
    (r.err ≠ none → (branch env st).1 = "") ∧
    (r.err = none → (∀ ln ∈ stringsSplit r.stdout '\n', stringsHasPrefix ln "* " = false) →
      (branch env st).1 = "") ∧
    (r.err = none → ∀ (pre post : List String) (rest : String),
      stringsSplit r.stdout '\n' = pre ++ ("* " ++ rest) :: post →
      (∀ ln ∈ pre, stringsHasPrefix ln "* " = false) →
      (branch env st).1 = rest) := by
  refine ⟨?_, ?_, ?_⟩
  · intro he
    cases hre : r.err with
    | none => exact absurd hre he
    | some e => simp [branch, Output, hr, hre]
  · intro he hno
    simp [branch, Output, hr, he, firstMarked_none _ hno]
  · intro he pre post rest hsplit hpre
    simp [branch, Output, hr, he, hsplit, firstMarked_hit pre post rest hpre]

/-- C8 in the sample environment: the listing has the lines `  dev` and
`* main`, and the branch is `main`. -/
theorem branch_extraction_witness :
    sampleEnv.run [] (git ["branch"]) = ⟨"  dev\n* main\n", "", none⟩ ∧
    (branch sampleEnv (startState [] [])).1 = "main" :=
  ⟨by decide,
    (branch_extraction sampleEnv (startState [] []) ⟨"  dev\n* main\n", "", none⟩
      (by decide)).2.2 rfl ["  dev"] [""] "main" (by decide) (by decide)⟩

/-! ## The plain commit (C2, C10) -/

theorem plain_commit_dispatch (env : Env) (st : State) (line c : String)
    (pre post : List String)
    (hline : commandLine line = c :: (pre ++ "-m" :: post))
    (hc : stringsTrimSpace c = "commit")
    (hdraft : ∀ d, (draftFile env st).1 = .ok d →
      fileExists (draftFile env st).2 d = .ok false) :
    dispatch env st line =
      .next (printlnOutput env
        (commitFlags (draftFile env st).2 ["--allow-empty-message"] (pre ++ "-m" :: post)).2
        (git (["commit"] ++
          (commitFlags (draftFile env st).2 ["--allow-empty-message"]
            (pre ++ "-m" :: post)).1))).2 := by
  rw [dispatch_commandLine, hline]
  simp only [List.cons_ne_nil, if_false, reduceCtorEq]
  rw [switchArgs_commit env st c _ hc, caseCommit_plain env st _ hdraft]
  simp [plainCommit]

/-- C2: on the plain commit path, with the first `-m` at position `k` (the
length of `pre`) and at least one token behind it, the tool is invoked with
`commit`, `--allow-empty-message`, the tokens before `-m`, then `-m` and one
last argument: the tokens behind position `k` with a single space between
each two of them.  No line of input is consumed. -/
theorem commit_message_joined (env : Env) (st : State) (line c : String)
    (pre post : List String)
    (hline : commandLine line = c :: (pre ++ "-m" :: post))
    (hc : stringsTrimSpace c = "commit")
    (hpre : "-m" ∉ pre) (hpost : post ≠ [])
    (hdraft : ∀ d, (draftFile env st).1 = .ok d →
      fileExists (draftFile env st).2 d = .ok false) :
    ∃ st1 ok1 ok2, dispatch env st line = .next st1 ∧
      calls st1.trace = calls st.trace ++
        [(["git", "worktree", "list", "--porcelain"], ok1),
         ("git" :: "commit" :: "--allow-empty-message" ::
           (pre ++ ["-m", String.intercalate " " post]), ok2)] ∧
      st1.input = st.input := by
  refine ⟨_, (env.run st.trace (git ["worktree", "list", "--porcelain"])).err.isNone,
    (env.run (draftFile env st).2.trace
      (git (["commit"] ++ (["--allow-empty-message"] ++ pre ++
        ["-m", stringsJoin post " "])))).err.isNone,
    plain_commit_dispatch env st line c pre post hline hc hdraft, ?_, ?_⟩
  · rw [commitFlags_spec _ _ _ _ hpre]
    simp only [hpost, ne_eq, not_false_eq_true, if_true]
    rw [printlnOutput_calls, draftFile_snd, ← stringsJoin_eq_intercalate]
    simp [State.log, calls_append, calls, git]
  · rw [commitFlags_spec _ _ _ _ hpre]
    simp only [hpost, ne_eq, not_false_eq_true, if_true]
    rw [printlnOutput_input, draftFile_snd]
    rfl

/-- C2 at the line `commit -a -m fix the -v bug` in the sample environment:
the message is the text `fix the -v bug`, and `-v` is no argument of its
own. -/
theorem commit_message_joined_witness :
    commandLine "commit -a -m fix the -v bug" =
      ["commit", "-a", "-m", "fix", "the", "-v", "bug"] ∧
    dispatch sampleEnv (startState ["next"] []) "commit -a -m fix the -v bug" =
      .next ⟨[.output ["git", "worktree", "list", "--porcelain"] none,
        .output ["git", "commit", "--allow-empty-message", "-a", "-m", "fix the -v bug"] none],
        ["next"], []⟩ ∧
    ∃ st1 ok1 ok2,
      dispatch sampleEnv (startState ["next"] []) "commit -a -m fix the -v bug" = .next st1 ∧
      calls st1.trace = [] ++
        [(["git", "worktree", "list", "--porcelain"], ok1),
         (["git", "commit", "--allow-empty-message", "-a", "-m", "fix the -v bug"], ok2)] ∧
      st1.input = ["next"] :=
  ⟨by decide, by decide,
    commit_message_joined sampleEnv (startState ["next"] []) "commit -a -m fix the -v bug"
      "commit" ["-a"] ["fix", "the", "-v", "bug"] (by decide) (by decide) (by decide)
      (by decide) (fun _ _ => rfl)⟩

/-- C10, as the code has it: for `commit -a -m x` the tool receives
`--allow-empty-message` first and `-a` behind it. -/
theorem flags_behind_allow_empty :
    calls (dispatch sampleEnv (startState [] []) "commit -a -m x").state.trace =
      [(["git", "worktree", "list", "--porcelain"], true),
       (["git", "commit", "--allow-empty-message", "-a", "-m", "x"], true)] ∧
    List.indexOf "--allow-empty-message"
        ["git", "commit", "--allow-empty-message", "-a", "-m", "x"] <
      List.indexOf "-a" ["git", "commit", "--allow-empty-message", "-a", "-m", "x"] := by
  decide

/-- C10, amended: on the plain commit path, with the first `-m` at position
`k` (the length of `pre`), the tool is invoked with `commit`, then
`--allow-empty-message`, then the tokens before position `k` unchanged and in
order, then `-m` and the message: the tokens behind `-m` joined with single
spaces, or the next line of input when there is none. -/
theorem commit_flags_behind_allow_empty (env : Env) (st : State) (line c : String)
    (pre post : List String)
    (hline : commandLine line = c :: (pre ++ "-m" :: post))
    (hc : stringsTrimSpace c = "commit")
    (hpre : "-m" ∉ pre)
    (hdraft : ∀ d, (draftFile env st).1 = .ok d →
      fileExists (draftFile env st).2 d = .ok false) :
    ∃ st1 ok1 ok2, dispatch env st line = .next st1 ∧
      calls st1.trace = calls st.trace ++
        [(["git", "worktree", "list", "--porcelain"], ok1),
         ("git" :: "commit" :: "--allow-empty-message" ::
           (pre ++ ["-m", if post = [] then st.input.headD "" else stringsJoin post " "]),
           ok2)] := by
  refine ⟨_, (env.run st.trace (git ["worktree", "list", "--porcelain"])).err.isNone, ?_,
    plain_commit_dispatch env st line c pre post hline hc hdraft, ?_⟩
  · exact (env.run
      (commitFlags (draftFile env st).2 ["--allow-empty-message"] (pre ++ "-m" :: post)).2.trace
      (git (["commit"] ++
        (commitFlags (draftFile env st).2 ["--allow-empty-message"]
          (pre ++ "-m" :: post)).1))).err.isNone
  · rw [printlnOutput_calls, commitFlags_spec _ _ _ _ hpre]
    by_cases hpost : post = []
    · simp only [hpost, ne_eq, not_true_eq_false, if_false, if_true, scanText_trace,
        scanText_fst]
      rw [draftFile_snd]
      simp [State.log, calls_append, calls, git]
    · simp only [hpost, ne_eq, not_false_eq_true, if_true, if_false]
      rw [draftFile_snd]
      simp [State.log, calls_append, calls, git]

/-- C10 amended, at the line `commit -a -v -m` with `fix it` as the next
line of input. -/
theorem commit_flags_behind_allow_empty_witness :
    commandLine "commit -a -v -m" = "commit" :: (["-a", "-v"] ++ "-m" :: []) ∧
    ∃ st1 ok1 ok2,
      dispatch sampleEnv (startState ["fix it"] []) "commit -a -v -m" = .next st1 ∧
      calls st1.trace = calls (startState ["fix it"] []).trace ++
        [(["git", "worktree", "list", "--porcelain"], ok1),
         ("git" :: "commit" :: "--allow-empty-message" ::
           (["-a", "-v"] ++ ["-m", if ([] : List String) = [] then
             (startState ["fix it"] []).input.headD "" else stringsJoin [] " "]), ok2)] :=
  ⟨by decide,
    commit_flags_behind_allow_empty sampleEnv (startState ["fix it"] []) "commit -a -v -m"
      "commit" ["-a", "-v"] [] (by decide) (by decide) (by decide) (fun _ _ => rfl)⟩

/-! ## Check-in (C6) -/

/-- C6: `ci` and `checkin`.  The tool is first asked to `add .`.  When that
fails nothing else is invoked.  When it succeeds the commit is invoked, with
`--allow-empty-message`, `-m` and one message: the remaining tokens with a
single space between each two of them, or the next line of input when that
text is empty.  When the commit fails nothing else is invoked; when it
succeeds `push` is invoked last.  Each outcome is the answer of the
environment at the trace where the tool was asked. -/
theorem checkin_sequence (env : Env) (st : State) (line c : String) (rest : List String)
    (hline : commandLine line = c :: rest)
    (hc : stringsTrimSpace c = "ci" ∨ stringsTrimSpace c = "checkin") :
    ∃ st1 msg, dispatch env st line = .next st1 ∧
      msg = (if String.intercalate " " rest = "" then st.input.headD ""
        else String.intercalate " " rest) ∧
      (((env.run st.trace ["git", "add", "."]).err ≠ none ∧
          calls st1.trace = calls st.trace ++ [(["git", "add", "."], false)] ∧
          st1.input = st.input) ∨
       ((env.run st.trace ["git", "add", "."]).err = none ∧
        ∃ tr2, calls tr2 = calls st.trace ++ [(["git", "add", "."], true)] ∧
          (((env.run tr2 ["git", "commit", "--allow-empty-message", "-m", msg]).err ≠ none ∧
              calls st1.trace = calls st.trace ++
                [(["git", "add", "."], true),
                 (["git", "commit", "--allow-empty-message", "-m", msg], false)]) ∨
           ((env.run tr2 ["git", "commit", "--allow-empty-message", "-m", msg]).err = none ∧
            ∃ tr3, calls tr3 = calls st.trace ++
                [(["git", "add", "."], true),
                 (["git", "commit", "--allow-empty-message", "-m", msg], true)] ∧
              calls st1.trace = calls st.trace ++
                [(["git", "add", "."], true),
                 (["git", "commit", "--allow-empty-message", "-m", msg], true),
                 (["git", "push"], (env.run tr3 ["git", "push"]).err.isNone)])))) := by
  rw [dispatch_commandLine, hline]
  simp only [List.cons_ne_nil, if_false, reduceCtorEq]
  rw [switchArgs_checkin env st c rest hc]
  simp only [caseCheckin, List.drop_succ_cons, List.drop_zero]
  have hc1 := printlnOutput_calls env st (git ["add", "."])
  have he1 := printlnOutput_fst env st (git ["add", "."])
  have hi1 := printlnOutput_input env st (git ["add", "."])
  cases h1 : printlnOutput env st (git ["add", "."]) with
  | mk e1 s1 =>
    rw [h1] at hc1 he1 hi1
    simp only at hc1 he1 hi1
    cases e1 with
    | some e =>
      refine ⟨s1, _, rfl, rfl, Or.inl ⟨?_, ?_, hi1⟩⟩
      · show (env.run st.trace (git ["add", "."])).err ≠ none
        rw [← he1]
        simp
      · rw [hc1, ← he1]
        rfl
    | none =>
      simp only
      have hmsg : ∃ msg st2,
          (if stringsJoin rest " " = "" then
              scanText (s1.log (.print ("enter commit message (optional):" ++ "\n")))
            else (stringsJoin rest " ", s1)) = (msg, st2) ∧
          msg = (if String.intercalate " " rest = "" then st.input.headD ""
            else String.intercalate " " rest) ∧
          calls st2.trace = calls s1.trace := by
        rw [← stringsJoin_eq_intercalate]
        by_cases hj : stringsJoin rest " " = ""
        · refine ⟨_, _, by rw [if_pos hj], ?_, ?_⟩
          · rw [if_pos hj, scanText_fst]
            simp [State.log, hi1]
          · rw [scanText_trace]
            simp [State.log, calls_append, calls]
        · exact ⟨_, _, by rw [if_neg hj], by rw [if_neg hj], rfl⟩
      obtain ⟨msg, st2, hpair, hm, hc2⟩ := hmsg
      rw [hpair]
      simp only
      have hadd : calls st2.trace = calls st.trace ++ [(["git", "add", "."], true)] := by
        rw [hc2, hc1, ← he1]
        rfl
      have hc3 := printlnOutput_calls env st2 (git ["commit", "--allow-empty-message", "-m", msg])
      have he3 := printlnOutput_fst env st2 (git ["commit", "--allow-empty-message", "-m", msg])
      cases h3 : printlnOutput env st2 (git ["commit", "--allow-empty-message", "-m", msg]) with
      | mk e3 s3 =>
        rw [h3] at hc3 he3
        simp only at hc3 he3
        have hadd0 : (env.run st.trace ["git", "add", "."]).err = none := by
          show (env.run st.trace (git ["add", "."])).err = none
          rw [← he1]
        cases e3 with
        | some e =>
          refine ⟨s3, msg, rfl, hm, Or.inr ⟨hadd0, st2.trace, hadd, Or.inl ⟨?_, ?_⟩⟩⟩
          · show (env.run st2.trace (git ["commit", "--allow-empty-message", "-m", msg])).err ≠
              none
            rw [← he3]
            simp
          · rw [hc3, hadd, ← he3]
            simp [git]
        | none =>
          refine ⟨_, msg, rfl, hm, Or.inr ⟨hadd0, st2.trace, hadd, Or.inr ⟨?_, s3.trace, ?_, ?_⟩⟩⟩
          · show (env.run st2.trace (git ["commit", "--allow-empty-message", "-m", msg])).err =
              none
            rw [← he3]
          · rw [hc3, hadd, ← he3]
            simp [git]
          · rw [printlnOutput_calls, hc3, hadd, ← he3]
            simp [git]

/-- C6 at the line `ci fix bug`: where the commit fails there is no push, and
where everything succeeds the three invocations follow each other; the
message is the text `fix bug`.  At the line `ci` the message is the next
line of input. -/
theorem checkin_sequence_witness :
    commandLine "ci fix bug" = ["ci", "fix", "bug"] ∧
    calls (dispatch failingCommitEnv (startState ["typed later"] []) "ci fix bug").state.trace =
      [(["git", "add", "."], true),
       (["git", "commit", "--allow-empty-message", "-m", "fix bug"], false)] ∧
    calls (dispatch sampleEnv (startState ["typed later"] []) "ci fix bug").state.trace =
      [(["git", "add", "."], true),
       (["git", "commit", "--allow-empty-message", "-m", "fix bug"], true),
       (["git", "push"], true)] ∧
    calls (dispatch sampleEnv (startState ["typed later"] []) "ci").state.trace =
      [(["git", "add", "."], true),
       (["git", "commit", "--allow-empty-message", "-m", "typed later"], true),
       (["git", "push"], true)] ∧
    ∃ st1 msg, dispatch failingCommitEnv (startState ["typed later"] []) "ci fix bug" =
        .next st1 ∧
      msg = (if String.intercalate " " ["fix", "bug"] = "" then
          (startState ["typed later"] []).input.headD ""
        else String.intercalate " " ["fix", "bug"]) ∧
      (((failingCommitEnv.run (startState ["typed later"] []).trace
            ["git", "add", "."]).err ≠ none ∧
          calls st1.trace = calls (startState ["typed later"] []).trace ++
            [(["git", "add", "."], false)] ∧
          st1.input = (startState ["typed later"] []).input) ∨
       ((failingCommitEnv.run (startState ["typed later"] []).trace
            ["git", "add", "."]).err = none ∧
        ∃ tr2, calls tr2 = calls (startState ["typed later"] []).trace ++
            [(["git", "add", "."], true)] ∧
          (((failingCommitEnv.run tr2
                ["git", "commit", "--allow-empty-message", "-m", msg]).err ≠ none ∧
              calls st1.trace = calls (startState ["typed later"] []).trace ++
                [(["git", "add", "."], true),
                 (["git", "commit", "--allow-empty-message", "-m", msg], false)]) ∨
           ((failingCommitEnv.run tr2
                ["git", "commit", "--allow-empty-message", "-m", msg]).err = none ∧
            ∃ tr3, calls tr3 = calls (startState ["typed later"] []).trace ++
                [(["git", "add", "."], true),
                 (["git", "commit", "--allow-empty-message", "-m", msg], true)] ∧
              calls st1.trace = calls (startState ["typed later"] []).trace ++
                [(["git", "add", "."], true),
                 (["git", "commit", "--allow-empty-message", "-m", msg], true),
                 (["git", "push"], (failingCommitEnv.run tr3 ["git", "push"]).err.isNone)])))) :=
  ⟨by decide, by decide, by decide, by decide,
    checkin_sequence failingCommitEnv (startState ["typed later"] []) "ci fix bug" "ci"
      ["fix", "bug"] (by decide) (Or.inl (by decide))⟩

/-! ## Commit from the draft (C7) -/

/-- C7, as the code has it: where the removal of the draft fails, the commit
is made from the draft and the draft file is still there afterwards; the
error of the removal is dropped. -/
theorem draft_left_when_removal_fails :
    dispatch failingRemoveEnv
        (startState [] [("/w/.git/COMMIT_DRAFTMSG", .readable "subject\n\nbody\n")])
        "commit" =
      .next ⟨[.output ["git", "worktree", "list", "--porcelain"] none,
          .output ["git", "commit", "-m", "subject\n\nbody\n"] none,
          .remove "/w/.git/COMMIT_DRAFTMSG" (some "remove: permission denied")],
        [], [("/w/.git/COMMIT_DRAFTMSG", .readable "subject\n\nbody\n")]⟩ ∧
    fileExists
        (dispatch failingRemoveEnv
          (startState [] [("/w/.git/COMMIT_DRAFTMSG", .readable "subject\n\nbody\n")])
          "commit").state
        "/w/.git/COMMIT_DRAFTMSG" = .ok true :=
  ⟨by decide, rfl⟩

/-- C7, amended: with the draft file `d` present with content `content` and
`commit` entered alone, the worktree query is followed by exactly one
invocation of the tool, with the arguments `commit`, `-m` and `content` as it
is in the file; whether that invocation succeeded or not, `os.Remove` is
called on the draft last.  The file does not exist afterwards when the
removal succeeded, and the files are as before when it failed. -/
theorem draft_commit (env : Env) (st : State) (line c d content : String)
    (hline : commandLine line = [c])
    (hc : stringsTrimSpace c = "commit")
    (hd : (draftFile env st).1 = .ok d)
    (hf : st.files.lookup d = some (.readable content)) :
    ∃ st1 ok, dispatch env st line = .next st1 ∧
      calls st1.trace = calls st.trace ++
        [(["git", "worktree", "list", "--porcelain"], true),
         (["git", "commit", "-m", content], ok)] ∧
      st1.trace.getLast? = some (.remove d (env.remove st1.trace.dropLast d)) ∧
      (env.remove st1.trace.dropLast d = none → fileExists st1 d = .ok false) ∧
      (env.remove st1.trace.dropLast d ≠ none → st1.files = st.files) := by
  rw [dispatch_commandLine, hline]
  simp only [List.cons_ne_nil, if_false, reduceCtorEq]
  rw [switchArgs_commit env st c [] hc]
  have hs := draftFile_snd env st
  have hrun := draftFile_ok_run env st d hd
  cases h : draftFile env st with
  | mk r st0 =>
    rw [h] at hd hs
    simp only at hd hs
    subst hd
    have hex : fileExists st0 d = .ok true := by
      rw [hs]
      simp [fileExists, State.log, hf]
    have hget : fileGetContents st0 d = .ok content := by
      rw [hs]
      simp [fileGetContents, State.log, hf]
    have hfiles : (printlnOutput env st0 (git ["commit", "-m", content])).2.files = st.files := by
      rw [printlnOutput_files, hs]
      rfl
    have hdrop : (osRemove env (printlnOutput env st0 (git ["commit", "-m", content])).2
        d).trace.dropLast = (printlnOutput env st0 (git ["commit", "-m", content])).2.trace := by
      simp [osRemove]
    simp only [caseCommit, h, hex, List.length_singleton, if_true, hget]
    refine ⟨_, (env.run st0.trace (git ["commit", "-m", content])).err.isNone, rfl, ?_, ?_,
      ?_, ?_⟩
    · rw [osRemove_calls, printlnOutput_calls, hs]
      simp only [git] at hrun
      simp [State.log, calls_append, calls, git, hrun]
    · rw [hdrop]
      simp [osRemove]
    · rw [hdrop]
      intro hnone
      exact fileExists_osRemove env _ d hnone
    · rw [hdrop]
      intro hsome
      cases hr : env.remove (printlnOutput env st0 (git ["commit", "-m", content])).2.trace d with
      | none => exact absurd hr hsome
      | some e => rw [osRemove_files_of_error env _ d e hr, hfiles]

/-- C7 amended, for a draft of three lines where the commit fails: the draft
is removed all the same. -/
theorem draft_commit_witness :
    dispatch failingCommitEnv
        (startState [] [("/w/.git/COMMIT_DRAFTMSG", .readable "subject\n\nbody\n")])
        "commit" =
      .next ⟨[.output ["git", "worktree", "list", "--porcelain"] none,
          .output ["git", "commit", "-m", "subject\n\nbody\n"] (some "exit status 1"),
          .print (Red ++ "ERROR:" ++ Reset ++ " " ++ "exit status 1" ++ "\n"),
          .print "nothing to commit\n",
          .remove "/w/.git/COMMIT_DRAFTMSG" none],
        [], []⟩ ∧
    ∃ st1 ok,
      dispatch failingCommitEnv
        (startState [] [("/w/.git/COMMIT_DRAFTMSG", .readable "subject\n\nbody\n")])
        "commit" = .next st1 ∧
      calls st1.trace =
        calls (startState [] [("/w/.git/COMMIT_DRAFTMSG",
          File.readable "subject\n\nbody\n")]).trace ++
        [(["git", "worktree", "list", "--porcelain"], true),
         (["git", "commit", "-m", "subject\n\nbody\n"], ok)] ∧
      st1.trace.getLast? = some (.remove "/w/.git/COMMIT_DRAFTMSG"
        (failingCommitEnv.remove st1.trace.dropLast "/w/.git/COMMIT_DRAFTMSG")) ∧
      (failingCommitEnv.remove st1.trace.dropLast "/w/.git/COMMIT_DRAFTMSG" = none →
        fileExists st1 "/w/.git/COMMIT_DRAFTMSG" = .ok false) ∧
      (failingCommitEnv.remove st1.trace.dropLast "/w/.git/COMMIT_DRAFTMSG" ≠ none →
        st1.files = (startState [] [("/w/.git/COMMIT_DRAFTMSG",
          File.readable "subject\n\nbody\n")]).files) :=
  ⟨by decide,
    draft_commit failingCommitEnv
      (startState [] [("/w/.git/COMMIT_DRAFTMSG", .readable "subject\n\nbody\n")])
      "commit" "commit" "/w/.git/COMMIT_DRAFTMSG" "subject\n\nbody\n"
      (by decide) (by decide) rfl (by decide)⟩

/-! ## The pager commands (C1, C4) and the pipe chain (C5) -/

/-- C1, as the code has it: for the line `log -p` the tool is started with
`log`, `--color`, `--color`; the argument `-p` is overwritten by the flag.
For `log` alone the tool is started with `log`, `--color`. -/
theorem log_first_argument_overwritten :
    commandLine "log -p" = ["log", "-p"] ∧
    calls (dispatch sampleEnv (startState [] []) "log -p").state.trace =
      [(["git", "config", "core.pager"], true),
       (["git", "log", "--color", "--color"], true),
       (["sh", "-c", "cat - | less"], true)] ∧
    calls (dispatch sampleEnv (startState [] []) "log").state.trace =
      [(["git", "config", "core.pager"], true),
       (["git", "log", "--color"], true),
       (["sh", "-c", "cat - | less"], true)] := by
  decide

/-- C4, as the code has it: with `core.pager` unset, the session that reads
`log` and then `status` ends in a panic at `log`; the trace holds the first
prompt and the failed query, the line `status` is never read and no second
prompt is rendered.  In the case `draft` a failed query of `config` is
reported and the loop goes on. -/
theorem pager_failure_ends_session :
    main noPagerEnv (startState ["log", "status"] []) =
      .panicked "exit status 1"
        ⟨[.output ["git", "worktree", "list", "--porcelain"] none,
          .attach ["git", "status", "-s", "-uall"] none,
          .output ["git", "branch"] none,
          .print (Grey ++ "git@" ++ Reset ++ Yellow ++ "main" ++ Reset ++ " " ++ Cyan ++
            "w" ++ "/src" ++ Reset ++ " % "),
          .output ["git", "config", "core.pager"] (some "exit status 1")],
         ["status"], []⟩ := by
  decide

/-- The same for every line: when `log`, `diff` or `show` is dispatched and
the query for `core.pager` fails with `e`, `pager` panics with `e`; no
program of the pipe chain is started, no further line is read and no prompt
is rendered. -/
theorem pager_failure_panics (env : Env) (st : State) (line c e : String)
    (rest more : List String)
    (hline : commandLine line = c :: rest)
    (hc : stringsTrimSpace c = "log" ∨ stringsTrimSpace c = "diff" ∨
      stringsTrimSpace c = "show")
    (he : (env.run st.trace (git ["config", "core.pager"])).err = some e) :
    dispatch env st line =
      .panic e (st.log (.output ["git", "config", "core.pager"] (some e))) ∧
    ∀ fuel, mainLoop env (fuel + 1) { st with input := line :: more } =
      .panicked e
        { trace := st.trace ++ [.output ["git", "config", "core.pager"] (some e)],
          input := more, files := st.files } := by
  constructor
  · rw [dispatch_pager env st line c rest hline hc, pager_error env st e he]
    rfl
  · intro fuel
    have hd := dispatch_pager env { st with input := more } line c rest hline hc
    rw [pager_error env { st with input := more } e he] at hd
    simp only [mainLoop, hd]
    rfl

/-- C5, as the code has it: when both programs start and the wait for the
first one fails, `AttachWithPipe` returns that failure after three steps,
start, start and wait; the write side of the pipe is not closed, and the
second program, which was started, is not waited for. -/
theorem pipe_left_open_on_failed_wait :
    AttachWithPipe failingWaitEnv (startState [] []) ["git", "log", "--color"]
        ["sh", "-c", "cat - | less"] =
      (some "exit status 128",
        ⟨[.start ["git", "log", "--color"] none,
          .start ["sh", "-c", "cat - | less"] none,
          .wait ["git", "log", "--color"] (some "exit status 128")], [], []⟩) ∧
    Event.closeWrite ∉
      (AttachWithPipe failingWaitEnv (startState [] []) ["git", "log", "--color"]
        ["sh", "-c", "cat - | less"]).2.trace ∧
    Event.closeWrite ∈
      (AttachWithPipe sampleEnv (startState [] []) ["git", "log", "--color"]
        ["sh", "-c", "cat - | less"]).2.trace := by
  decide

end Tiger
